import Mathlib

/-!
Shallow embedding of `safe_transaction_service/history/indexers/ethereum_indexer.py`
(class `EthereumIndexer`) and proofs about it.

Modelling conventions:
* Python integers are `Int`; Python floor division `//` is `Int.fdiv`.
* A monitored-address row is a pair `(address, watermark)` where the watermark is
  the value of the configured `database_field`; the table is a `List` of rows.
* The abstract members (`find_relevant_elements`, `process_element`, the current
  block number of the Ethereum client) are supplied by an `Env` record.
* Exceptions are an explicit error type; a step returns the error together with
  the post-state, since Python exceptions leave `self` and the database mutated.
* Store reads and writes are recorded in an event trace so that observational
  claims about them can be stated.
-/

/-- Monitored address identifier. -/
abbrev Addr := Nat

/-- The monitored-address table: one row per address with the watermark stored in
the strategy's `database_field` column. -/
abbrev Store := List (Addr × Int)

/-- Engine configuration and mutable state of `EthereumIndexer.__init__`.
`blockProcessLimit` is the one field mutated after construction. -/
structure Indexer where
  confirmations : Int
  blockProcessLimit : Int
  blockProcessLimitMax : Int
  blocksToReindexAgain : Int
  updatedBlocksBehind : Int
  blockAutoProcessLimit : Bool
deriving DecidableEq, Repr

/-- The exception kinds raised inside `process_addresses`:
the five caught at the find/process boundary, the `ValueError` raised when the
conditional update count is falsy, and the `assert` on an empty address set. -/
inductive IndexErr
  | findRelevantElements
  | softTimeLimitExceeded
  | requestTimeout
  | valueError
  | web3RPCError
  | possibleReorg
  | emptyAddresses
deriving DecidableEq, Repr

/-- The transient fetch-error kinds listed in the `except` clause of
`process_addresses` (`FindRelevantElementsException`, `SoftTimeLimitExceeded`,
`Timeout`, `ValueError`, `Web3RPCError`). -/
def IndexErr.transient : IndexErr → Bool
  | .findRelevantElements => true
  | .softTimeLimitExceeded => true
  | .requestTimeout => true
  | .valueError => true
  | .web3RPCError => true
  | _ => false

/-- Observable store operations, in program order: the aggregate `Min` read of
`get_from_block_number`, the two tier queries, and the conditional bulk update
of `update_monitored_addresses`. -/
inductive Event
  | readMinBlockNumber (addresses : List Addr) (result : Option Int)
  | readAlmostUpdated (result : List Addr)
  | readNotUpdated (result : List Addr)
  | writeWatermarks (addresses : List Addr) (fromBlock toBlock : Int) (count : Nat)
deriving DecidableEq, Repr

/-- External collaborators of the engine: the Ethereum client's current block
number, the abstract `find_relevant_elements` and `process_element`, and the
wall-clock duration observed by the timing scope for a given block interval. -/
structure Env (α β : Type) where
  currentBlock : Int
  find : List Addr → Int → Int → Int → Except IndexErr (List α)
  processElement : α → List β
  findDelta : Int → Int → Int

/-- Minimum of a list of watermarks (`aggregate(Min(database_field))`):
`none` on an empty queryset. -/
def minimumWatermark : List Int → Option Int
  | [] => none
  | w :: ws =>
    match minimumWatermark ws with
    | none => some w
    | some m => some (min w m)

/-- The watermark column of the rows `get_from_block_number` aggregates over:
`database_queryset.filter(address__in=addresses) if addresses else
database_queryset` — an empty (falsy) address collection selects every row. -/
def watermarksFor (addresses : List Addr) (store : Store) : List Int :=
  if addresses.isEmpty then store.map (·.2)
  else (store.filter (fun p => addresses.contains p.1)).map (·.2)

/-- `EthereumIndexer.get_from_block_number`. -/
def getFromBlockNumber (addresses : List Addr) (store : Store) : Option Int :=
  minimumWatermark (watermarksFor addresses store)

/-- `EthereumIndexer.get_almost_updated_addresses`: rows whose watermark lies in
`[max(global minimum or 0, current − updated_blocks_behind), current − confirmations)`. -/
def getAlmostUpdatedAddresses (st : Indexer) (store : Store) (current : Int) : List Addr :=
  let fromBlock := max ((getFromBlockNumber [] store).getD 0) (current - st.updatedBlocksBehind)
  let toBlock := current - st.confirmations
  (store.filter (fun p => fromBlock ≤ p.2 ∧ p.2 < toBlock)).map (·.1)

/-- `EthereumIndexer.get_not_updated_addresses`: rows whose watermark is
`≤ current − confirmations`. -/
def getNotUpdatedAddresses (st : Indexer) (store : Store) (current : Int) : List Addr :=
  (store.filter (fun p => p.2 ≤ current - st.confirmations)).map (·.1)

/-- `EthereumIndexer.get_to_block_number`:
`min(from + block_process_limit − 1, current − confirmations)`. -/
def getToBlockNumber (st : Indexer) (fromBlock current : Int) : Int :=
  min (fromBlock + st.blockProcessLimit - 1) (current - st.confirmations)

/-- `EthereumIndexer.get_block_numbers_for_search`. -/
def getBlockNumbersForSearch (st : Indexer) (addresses : List Addr) (store : Store)
    (current : Int) : Option (Int × Int) :=
  match getFromBlockNumber addresses store with
  | none => none
  | some fromBlock =>
    if current - fromBlock < st.confirmations then none
    else
      let toBlock := getToBlockNumber st fromBlock current
      let fromBlock' :=
        if fromBlock + st.blockProcessLimit > current - st.confirmations then
          let blocksToReindex :=
            min (st.blockProcessLimit - (toBlock - fromBlock + 1)) st.blocksToReindexAgain
          max (fromBlock - blocksToReindex) 0
        else fromBlock
      some (fromBlock', toBlock)

/-- Whether a row is selected by the conditional update of
`update_monitored_addresses`: address in the set and watermark in
`[from_block_number, to_block_number + 1)`. -/
def rowMatches (addresses : List Addr) (fromBlock toBlock : Int) (p : Addr × Int) : Bool :=
  addresses.contains p.1 && decide (fromBlock ≤ p.2) && decide (p.2 < toBlock + 1)

/-- `EthereumIndexer.update_monitored_addresses`: the selected rows get watermark
`to_block_number + 1`; the second component is the row count the bulk `update`
returns (which the function passes back to its caller). -/
def updateMonitoredAddresses (addresses : List Addr) (fromBlock toBlock : Int)
    (store : Store) : Store × Nat :=
  (store.map (fun p => if rowMatches addresses fromBlock toBlock p then (p.1, toBlock + 1) else p),
   (store.filter (rowMatches addresses fromBlock toBlock)).length)

/-- The `elif` ladder of `auto_adjust_block_limit`, from the observed duration
`delta` to the tuned `block_process_limit`, in source order. -/
def tuneLadder (l delta : Int) : Int :=
  if delta > 30 then max (Int.fdiv l 2) 1
  else if delta > 10 then max (l - 20) 1
  else if delta < 2 then l * 2
  else if delta < 5 then l + 20
  else l

/-- The trailing clamp of `auto_adjust_block_limit`:
`if block_process_limit_max and block_process_limit > block_process_limit_max`
(`and` per Python truthiness: the maximum is set iff non-zero). -/
def clampToMax (limitMax l' : Int) : Int :=
  if limitMax ≠ 0 ∧ l' > limitMax then limitMax else l'

/-- `EthereumIndexer.auto_adjust_block_limit`, as the function from the observed
duration `delta` of the wrapped scope to the new `block_process_limit`. The
guard mirrors `not (block_auto_process_limit and (1 + to - from) ==
block_process_limit)`: only an enabled, full-size measurement adjusts. -/
def autoAdjustBlockLimit (st : Indexer) (fromBlock toBlock delta : Int) : Int :=
  if st.blockAutoProcessLimit ∧ 1 + toBlock - fromBlock = st.blockProcessLimit then
    clampToMax st.blockProcessLimitMax (tuneLadder st.blockProcessLimit delta)
  else st.blockProcessLimit

/-- The window-size tuning rule as the specification words it: only a full-size
enabled measurement adjusts; duration over 30 halves (floor 1), in (10, 30]
subtracts 20 (floor 1), under 2 doubles, in [2, 5) adds 20, in [5, 10] leaves
unchanged; afterwards the result is clamped to the configured maximum whenever
that maximum is set and exceeded. -/
def specTune (l delta : Int) : Int :=
  if 30 < delta then max (Int.fdiv l 2) 1
  else if 10 < delta ∧ delta ≤ 30 then max (l - 20) 1
  else if delta < 2 then l * 2
  else if 2 ≤ delta ∧ delta < 5 then l + 20
  else l

def specClamp (limitMax tuned : Int) : Int :=
  if limitMax ≠ 0 ∧ limitMax < tuned then limitMax else tuned

def specWindowAdjust (st : Indexer) (fromBlock toBlock delta : Int) : Int :=
  if st.blockAutoProcessLimit ∧ 1 + toBlock - fromBlock = st.blockProcessLimit then
    specClamp st.blockProcessLimitMax (specTune st.blockProcessLimit delta)
  else st.blockProcessLimit

/-- The tuple returned by one `process_addresses` call: processed data, first
block processed, last block processed, and the caught-up flag. -/
structure StepResult (β : Type) where
  processed : List β
  firstBlock : Option Int
  lastBlock : Int
  updated : Bool
deriving DecidableEq, Repr

/-- `EthereumIndexer.process_addresses`.

Modelled from the spec: the concrete `find_relevant_elements` implementations
(subclasses outside the examined source) run their query inside the
`auto_adjust_block_limit` scope, so a successful find applies the adjustment
with the duration supplied by the environment; a failing find skips the
adjustment (the generator-based context manager never resumes past its
`yield`), and the `except` clause then resets `block_process_limit` to 1. -/
def processAddresses {α β : Type} (env : Env α β) (st : Indexer) (store : Store)
    (addresses : List Addr) (current : Int) :
    Except IndexErr (StepResult β) × Indexer × Store × List Event :=
  if addresses.isEmpty then (.error .emptyAddresses, st, store, [])
  else
    let readEv := Event.readMinBlockNumber addresses (getFromBlockNumber addresses store)
    match getBlockNumbersForSearch st addresses store current with
    | none => (.ok ⟨[], none, current, true⟩, st, store, [readEv])
    | some (fromBlock, toBlock) =>
      let updated : Bool := toBlock == current - st.confirmations
      match env.find addresses fromBlock toBlock current with
      | .error e => (.error e, { st with blockProcessLimit := 1 }, store, [readEv])
      | .ok elements =>
        let st' := { st with
          blockProcessLimit :=
            autoAdjustBlockLimit st fromBlock toBlock (env.findDelta fromBlock toBlock) }
        let processed := (elements.map env.processElement).flatten
        let (store', count) := updateMonitoredAddresses addresses fromBlock toBlock store
        let writeEv := Event.writeWatermarks addresses fromBlock toBlock count
        if count = 0 then (.error .possibleReorg, st', store', [readEv, writeEv])
        else (.ok ⟨processed, some fromBlock, toBlock, updated⟩, st', store', [readEv, writeEv])

/-- Errors that can end a whole `start()` run: a propagated step exception, a
Python `TypeError` from `None` arithmetic/comparison in the second tier's
bookkeeping, or insufficient fuel for the two drain loops. -/
inductive RunErr
  | step (e : IndexErr)
  | typeMismatch
  | fuelExhausted
deriving DecidableEq, Repr

/-- Instrumentation record of one committed batch: the `from_block_number` and
`to_block_number` it was processed with and the number of processed elements. -/
abbrev Batch := Int × Int × Nat

/-- The `while not updated` loop over the almost-updated tier of
`EthereumIndexer.start`, carrying the aggregation variables
(`total_number_processed_elements`, `start_block`) and an instrumentation list
of the committed batches. Returns the accumulators together with the final
iteration's `to_block_number` (the tier's `last_block`). -/
def processAlmostUpdatedLoop {α β : Type} (env : Env α β) (addresses : List Addr)
    (current : Int) :
    Nat → Indexer → Store → Nat → Option Int → List Batch →
    Except RunErr (Nat × Option Int × Int × List Batch) × Indexer × Store × List Event
  | 0, st, store, _, _, _ => (.error .fuelExhausted, st, store, [])
  | fuel + 1, st, store, total, startBlock, batches =>
    match processAddresses env st store addresses current with
    | (.error e, st', store', tr) => (.error (.step e), st', store', tr)
    | (.ok r, st', store', tr) =>
      let total' := total + r.processed.length
      -- if start_block is None: start_block = from_block_number
      let startBlock' := if startBlock.isNone then r.firstBlock else startBlock
      let batches' :=
        match r.firstBlock with
        | some f => batches ++ [(f, r.lastBlock, r.processed.length)]
        | none => batches
      if r.updated then (.ok (total', startBlock', r.lastBlock, batches'), st', store', tr)
      else
        match processAlmostUpdatedLoop env addresses current fuel st' store' total' startBlock' batches' with
        | (out, st2, store2, tr2) => (out, st2, store2, tr ++ tr2)

/-- The `while not updated` loop over the not-updated tier of
`EthereumIndexer.start`, exactly as the source has it — including the trailing
`from_block_number += 1` of each iteration.  The incremented value is rebound
from the `process_addresses` result at the head of the next iteration, so only
the `TypeError` that `None` bookkeeping would raise is observable. -/
def processNotUpdatedLoop {α β : Type} (env : Env α β) (addresses : List Addr)
    (current : Int) :
    Nat → Indexer → Store → Nat → Option Int → List Batch →
    Except RunErr (Nat × Option Int × Int × List Batch) × Indexer × Store × List Event
  | 0, st, store, _, _, _ => (.error .fuelExhausted, st, store, [])
  | fuel + 1, st, store, total, startBlock, batches =>
    match processAddresses env st store addresses current with
    | (.error e, st', store', tr) => (.error (.step e), st', store', tr)
    | (.ok r, st', store', tr) =>
      -- if start_block is None or from_block_number < start_block: ...
      match startBlock, r.firstBlock with
      | some _, none =>
        -- None < int raises TypeError
        (.error .typeMismatch, st', store', tr)
      | none, none =>
        -- start_block = None; then `from_block_number += 1` on None raises TypeError
        (.error .typeMismatch, st', store', tr)
      | none, some f =>
        let total' := total + r.processed.length
        let batches' := batches ++ [(f, r.lastBlock, r.processed.length)]
        let _fromNext := f + 1   -- from_block_number += 1 (rebound next iteration)
        if r.updated then (.ok (total', some f, r.lastBlock, batches'), st', store', tr)
        else
          match processNotUpdatedLoop env addresses current fuel st' store' total' (some f) batches' with
          | (out, st2, store2, tr2) => (out, st2, store2, tr ++ tr2)
      | some s, some f =>
        let startBlock' := if f < s then some f else some s
        let total' := total + r.processed.length
        let batches' := batches ++ [(f, r.lastBlock, r.processed.length)]
        let _fromNext := f + 1   -- from_block_number += 1 (rebound next iteration)
        if r.updated then (.ok (total', startBlock', r.lastBlock, batches'), st', store', tr)
        else
          match processNotUpdatedLoop env addresses current fuel st' store' total' startBlock' batches' with
          | (out, st2, store2, tr2) => (out, st2, store2, tr ++ tr2)

/-- The not-updated tier loop with the trailing `from_block_number += 1`
removed; everything else is as in `processNotUpdatedLoop`. -/
def processNotUpdatedLoopNoInc {α β : Type} (env : Env α β) (addresses : List Addr)
    (current : Int) :
    Nat → Indexer → Store → Nat → Option Int → List Batch →
    Except RunErr (Nat × Option Int × Int × List Batch) × Indexer × Store × List Event
  | 0, st, store, _, _, _ => (.error .fuelExhausted, st, store, [])
  | fuel + 1, st, store, total, startBlock, batches =>
    match processAddresses env st store addresses current with
    | (.error e, st', store', tr) => (.error (.step e), st', store', tr)
    | (.ok r, st', store', tr) =>
      match startBlock, r.firstBlock with
      | some _, none =>
        -- the comparison None < int still raises TypeError
        (.error .typeMismatch, st', store', tr)
      | none, none =>
        let total' := total + r.processed.length
        if r.updated then (.ok (total', none, r.lastBlock, batches), st', store', tr)
        else
          match processNotUpdatedLoopNoInc env addresses current fuel st' store' total' none batches with
          | (out, st2, store2, tr2) => (out, st2, store2, tr ++ tr2)
      | none, some f =>
        let total' := total + r.processed.length
        let batches' := batches ++ [(f, r.lastBlock, r.processed.length)]
        if r.updated then (.ok (total', some f, r.lastBlock, batches'), st', store', tr)
        else
          match processNotUpdatedLoopNoInc env addresses current fuel st' store' total' (some f) batches' with
          | (out, st2, store2, tr2) => (out, st2, store2, tr ++ tr2)
      | some s, some f =>
        let startBlock' := if f < s then some f else some s
        let total' := total + r.processed.length
        let batches' := batches ++ [(f, r.lastBlock, r.processed.length)]
        if r.updated then (.ok (total', startBlock', r.lastBlock, batches'), st', store', tr)
        else
          match processNotUpdatedLoopNoInc env addresses current fuel st' store' total' startBlock' batches' with
          | (out, st2, store2, tr2) => (out, st2, store2, tr ++ tr2)

/-- First half of `EthereumIndexer.start`: query the almost-updated tier and
drain it.  Returns `(total, start_block, last_block, batches)`. -/
def runTier1 {α β : Type} (env : Env α β) (fuel : Nat) (st : Indexer) (store : Store) :
    Except RunErr (Nat × Option Int × Option Int × List Batch) × Indexer × Store × List Event :=
  let almost := getAlmostUpdatedAddresses st store env.currentBlock
  let ev := Event.readAlmostUpdated almost
  if almost.isEmpty then (.ok (0, none, none, []), st, store, [ev])
  else
    match processAlmostUpdatedLoop env almost env.currentBlock fuel st store 0 none [] with
    | (.error e, st', store', tr) => (.error e, st', store', ev :: tr)
    | (.ok (total, sb, lastTo, bs), st', store', tr) =>
      (.ok (total, sb, some lastTo, bs), st', store', ev :: tr)

/-- `if last_block is None or to_block_number > last_block: last_block =
to_block_number` — the fold of a tier's final `to` into the running
`last_block`. -/
def foldLastBlock (lastB : Option Int) (lastTo : Int) : Option Int :=
  match lastB with
  | none => some lastTo
  | some lb => if lastTo > lb then some lastTo else some lb

/-- Second half of `EthereumIndexer.start` (parameterised by the tier-2 loop,
so that the source loop and the increment-free loop can be compared): query the
not-updated tier against the store as tier 1 left it, drain it, and fold the
tier's `last_block` into the running one. -/
def runTier2With {α β : Type}
    (loop : Env α β → List Addr → Int →
      Nat → Indexer → Store → Nat → Option Int → List Batch →
      Except RunErr (Nat × Option Int × Int × List Batch) × Indexer × Store × List Event)
    (env : Env α β) (fuel : Nat) (st : Indexer) (store : Store)
    (total : Nat) (sb : Option Int) (lastB : Option Int) :
    Except RunErr (Nat × Option Int × Option Int × List Batch) × Indexer × Store × List Event :=
  let notUpd := getNotUpdatedAddresses st store env.currentBlock
  let ev := Event.readNotUpdated notUpd
  if notUpd.isEmpty then (.ok (total, sb, lastB, []), st, store, [ev])
  else
    match loop env notUpd env.currentBlock fuel st store total sb [] with
    | (.error e, st', store', tr) => (.error e, st', store', ev :: tr)
    | (.ok (total', sb', lastTo, bs), st', store', tr) =>
      (.ok (total', sb', foldLastBlock lastB lastTo, bs), st', store', ev :: tr)

/-- `EthereumIndexer.start`, source control flow.  Returns the
`(number of elements processed, number of blocks processed)` pair together with
the final engine state, store, event trace, and the two tiers' batch lists. -/
def startRun {α β : Type} (env : Env α β) (fuel : Nat) (st : Indexer) (store : Store) :
    Except RunErr (Nat × Int) × Indexer × Store × List Event × List Batch × List Batch :=
  match runTier1 env fuel st store with
  | (.error e, st1, store1, tr1) => (.error e, st1, store1, tr1, [], [])
  | (.ok (t1, sb1, lb1, b1), st1, store1, tr1) =>
    match runTier2With processNotUpdatedLoop env fuel st1 store1 t1 sb1 lb1 with
    | (.error e, st2, store2, tr2) => (.error e, st2, store2, tr1 ++ tr2, b1, [])
    | (.ok (t2, sb2, lb2, b2), st2, store2, tr2) =>
      let blocks : Int :=
        match sb2, lb2 with
        | some s, some l => l - s + 1
        | _, _ => 0
      (.ok (t2, blocks), st2, store2, tr1 ++ tr2, b1, b2)

/-- `EthereumIndexer.start` with the dead `from_block_number += 1` of the
second tier removed. -/
def startRunNoInc {α β : Type} (env : Env α β) (fuel : Nat) (st : Indexer) (store : Store) :
    Except RunErr (Nat × Int) × Indexer × Store × List Event × List Batch × List Batch :=
  match runTier1 env fuel st store with
  | (.error e, st1, store1, tr1) => (.error e, st1, store1, tr1, [], [])
  | (.ok (t1, sb1, lb1, b1), st1, store1, tr1) =>
    match runTier2With processNotUpdatedLoopNoInc env fuel st1 store1 t1 sb1 lb1 with
    | (.error e, st2, store2, tr2) => (.error e, st2, store2, tr1 ++ tr2, b1, [])
    | (.ok (t2, sb2, lb2, b2), st2, store2, tr2) =>
      let blocks : Int :=
        match sb2, lb2 with
        | some s, some l => l - s + 1
        | _, _ => 0
      (.ok (t2, blocks), st2, store2, tr1 ++ tr2, b1, b2)

/-! ### Store lemmas -/

theorem minimumWatermark_mem : ∀ {l : List Int} {m : Int},
    minimumWatermark l = some m → m ∈ l := by
  intro l
  induction l with
  | nil => intro m h; simp [minimumWatermark] at h
  | cons w ws ih =>
    intro m h
    unfold minimumWatermark at h
    cases hw : minimumWatermark ws with
    | none =>
      rw [hw] at h
      injection h with h
      subst h
      exact List.mem_cons_self _ _
    | some m' =>
      rw [hw] at h
      injection h with h
      subst h
      rcases min_cases w m' with ⟨heq, _⟩ | ⟨heq, _⟩
      · rw [heq]; exact List.mem_cons_self _ _
      · rw [heq]; exact List.mem_cons_of_mem _ (ih hw)

theorem minimumWatermark_le : ∀ {l : List Int} {m w : Int},
    minimumWatermark l = some m → w ∈ l → m ≤ w := by
  intro l
  induction l with
  | nil => intro m w h _; simp [minimumWatermark] at h
  | cons x xs ih =>
    intro m w h hw
    unfold minimumWatermark at h
    cases hx : minimumWatermark xs with
    | none =>
      rw [hx] at h
      injection h with h
      subst h
      rcases List.mem_cons.mp hw with rfl | hw'
      · exact le_refl _
      · cases xs with
        | nil => cases hw'
        | cons y ys =>
          exfalso
          unfold minimumWatermark at hx
          cases hmy : minimumWatermark ys <;> rw [hmy] at hx <;> cases hx
    | some m' =>
      rw [hx] at h
      injection h with h
      subst h
      rcases List.mem_cons.mp hw with rfl | hw'
      · exact min_le_left _ _
      · exact le_trans (min_le_right _ _) (ih hx hw')

theorem minimumWatermark_isSome {l : List Int} (h : l ≠ []) :
    ∃ m, minimumWatermark l = some m := by
  cases l with
  | nil => exact absurd rfl h
  | cons w ws =>
    unfold minimumWatermark
    cases minimumWatermark ws with
    | none => exact ⟨w, rfl⟩
    | some m' => exact ⟨min w m', rfl⟩

theorem watermarksFor_mem {addresses : List Addr} {store : Store} {w : Int}
    (h : w ∈ watermarksFor addresses store) : ∃ p ∈ store, p.2 = w := by
  unfold watermarksFor at h
  split at h
  · obtain ⟨p, hp, rfl⟩ := List.mem_map.mp h
    exact ⟨p, hp, rfl⟩
  · obtain ⟨p, hp, rfl⟩ := List.mem_map.mp h
    exact ⟨p, List.mem_of_mem_filter hp, rfl⟩

theorem getFromBlockNumber_nonneg {addresses : List Addr} {store : Store} {m : Int}
    (h : getFromBlockNumber addresses store = some m)
    (hwm : ∀ p ∈ store, 0 ≤ p.2) : 0 ≤ m := by
  obtain ⟨p, hp, hpw⟩ := watermarksFor_mem (minimumWatermark_mem h)
  exact hpw ▸ hwm p hp

/-! ### Claims about the range calculator -/

/-- Claim C3: for an address set with minimum watermark `m` and height `current`
with `current − m ≥ confirmations`, the range calculator returns a range whose
upper bound is `min(m + windowSize − 1, current − confirmations)`; in
particular that bound never exceeds `current − confirmations`. -/
theorem claim_C3 (st : Indexer) (addresses : List Addr) (store : Store) (current m : Int)
    (hmin : getFromBlockNumber addresses store = some m)
    (hconf : current - m ≥ st.confirmations) :
    (∃ f, getBlockNumbersForSearch st addresses store current =
      some (f, min (m + st.blockProcessLimit - 1) (current - st.confirmations))) ∧
    min (m + st.blockProcessLimit - 1) (current - st.confirmations) ≤
      current - st.confirmations := by
  refine ⟨?_, min_le_right _ _⟩
  have h1 : ¬ (current - m < st.confirmations) := by omega
  simp only [getBlockNumbersForSearch, getToBlockNumber, hmin, if_neg h1]
  exact ⟨_, rfl⟩

/-- Claim C4: when the untruncated window would land at or past
`current − confirmations` the returned `from` is the minimum watermark lowered
by exactly `min(windowSize − (to − from + 1), reindexMargin)` and floored at 0;
otherwise it is the minimum watermark unchanged. -/
theorem claim_C4 (st : Indexer) (addresses : List Addr) (store : Store) (current m : Int)
    (hmin : getFromBlockNumber addresses store = some m)
    (hconf : current - m ≥ st.confirmations) :
    (current - st.confirmations ≤ m + st.blockProcessLimit - 1 →
      getBlockNumbersForSearch st addresses store current =
        some (max (m - min (st.blockProcessLimit -
                (min (m + st.blockProcessLimit - 1) (current - st.confirmations) - m + 1))
              st.blocksToReindexAgain) 0,
          min (m + st.blockProcessLimit - 1) (current - st.confirmations))) ∧
    (m + st.blockProcessLimit - 1 < current - st.confirmations →
      getBlockNumbersForSearch st addresses store current =
        some (m, min (m + st.blockProcessLimit - 1) (current - st.confirmations))) := by
  constructor
  · intro htip
    have h1 : ¬ (current - m < st.confirmations) := by omega
    have h2 : m + st.blockProcessLimit > current - st.confirmations := by omega
    simp only [getBlockNumbersForSearch, getToBlockNumber, hmin, if_neg h1, if_pos h2]
  · intro hnotip
    have h1 : ¬ (current - m < st.confirmations) := by omega
    have h2 : ¬ (m + st.blockProcessLimit > current - st.confirmations) := by omega
    simp only [getBlockNumbersForSearch, getToBlockNumber, hmin, if_neg h1, if_neg h2]

/-! ### Claims about the adaptive throttle -/

/-- Claim C5: the throttle adjusts only for an enabled, full-size measurement,
and then follows exactly the duration rule of the specification (over 30 halve
with floor 1; in (10, 30] subtract 20 with floor 1; under 2 double; in [2, 5)
add 20; in [5, 10] unchanged), clamped to the configured maximum whenever that
maximum is set and exceeded. -/
theorem claim_C5 (st : Indexer) (fromBlock toBlock delta : Int) :
    autoAdjustBlockLimit st fromBlock toBlock delta =
      specWindowAdjust st fromBlock toBlock delta := by
  unfold autoAdjustBlockLimit clampToMax tuneLadder specWindowAdjust specClamp specTune
  split_ifs <;> first | rfl | omega

/-! ### Claims about range invariants -/

/-- Claim C7 as stated is false on the code: with the documented
`block_process_limit = 0` ("no limit") configuration the calculator returns a
range whose `from` exceeds its `to`. -/
theorem claim_C7_counterexample :
    getBlockNumbersForSearch ⟨0, 0, 0, 0, 20, true⟩ [0] [(0, 7)] 9 = some (7, 6) ∧
    ¬ ((7 : Int) ≤ 6) := by decide

/-- Claim C7 (amended): whenever the window size is at least 1, the reindex
margin is non-negative and the stored watermarks are non-negative, every range
the calculator returns satisfies `from ≤ to`. -/
theorem claim_C7_amended (st : Indexer) (addresses : List Addr) (store : Store)
    (current f t : Int)
    (hl : 1 ≤ st.blockProcessLimit)
    (hmar : 0 ≤ st.blocksToReindexAgain)
    (hwm : ∀ p ∈ store, 0 ≤ p.2)
    (h : getBlockNumbersForSearch st addresses store current = some (f, t)) :
    f ≤ t := by
  cases hmin : getFromBlockNumber addresses store with
  | none => simp [getBlockNumbersForSearch, hmin] at h
  | some m =>
    have hm0 : 0 ≤ m := getFromBlockNumber_nonneg hmin hwm
    by_cases hguard : current - m < st.confirmations
    · simp [getBlockNumbersForSearch, hmin, hguard] at h
    · simp only [getBlockNumbersForSearch, getToBlockNumber, hmin, if_neg hguard] at h
      split at h <;>
      · rw [Option.some.injEq, Prod.mk.injEq] at h
        obtain ⟨hf, ht⟩ := h
        omega

/-- Witness for claim C3, at `confirmations = 10`, `windowSize = 5`,
watermark 0 and height 12 (the specification's second scenario). -/
theorem claim_C3_witness :
    getFromBlockNumber [0] [(0, 0)] = some 0 ∧
    (12 : Int) - 0 ≥ (10 : Int) ∧
    ((∃ f, getBlockNumbersForSearch ⟨10, 5, 0, 0, 20, false⟩ [0] [(0, 0)] 12 =
        some (f, 2)) ∧
      (2 : Int) ≤ 2) :=
  ⟨by decide, by decide,
    claim_C3 ⟨10, 5, 0, 0, 20, false⟩ [0] [(0, 0)] 12 0 (by decide) (by decide)⟩

/-- Witness for claim C4: a tip-touching batch at watermark 60, height 60,
`windowSize = 20`, `reindexMargin = 11` lowers `from` to 49; changing the
height to 100 exercises the non-tip branch. -/
theorem claim_C4_witness :
    getFromBlockNumber [0] [(0, 60)] = some 60 ∧
    (60 : Int) - 60 ≥ (0 : Int) ∧
    (((60 : Int) - 0 ≤ 60 + 20 - 1 →
        getBlockNumbersForSearch ⟨0, 20, 0, 11, 20, true⟩ [0] [(0, 60)] 60 =
          some (49, 60)) ∧
      ((60 : Int) + 20 - 1 < 60 - 0 →
        getBlockNumbersForSearch ⟨0, 20, 0, 11, 20, true⟩ [0] [(0, 60)] 60 =
          some (60, 60))) :=
  ⟨by decide, by decide,
    claim_C4 ⟨0, 20, 0, 11, 20, true⟩ [0] [(0, 60)] 60 60 (by decide) (by decide)⟩

/-- Witness for claim C7 (amended) at watermark 5, height 14, window 10. -/
theorem claim_C7_witness :
    (1 : Int) ≤ 10 ∧ (0 : Int) ≤ 0 ∧ (∀ p ∈ ([(0, 5)] : Store), 0 ≤ p.2) ∧
    getBlockNumbersForSearch ⟨0, 10, 0, 0, 20, false⟩ [0] [(0, 5)] 14 = some (5, 14) ∧
    (5 : Int) ≤ 14 :=
  ⟨by decide, by decide, by decide, by decide,
    claim_C7_amended ⟨0, 10, 0, 0, 20, false⟩ [0] [(0, 5)] 14 5 14
      (by decide) (by decide) (by decide) (by decide)⟩

/-! ### Claims about window-size bounds -/

/-- Claim C6 as stated is false on the code: with the documented
`block_process_limit = 0` ("no limit") configuration, a step whose range the
calculator reports as `(5, 4)` counts as a full-size measurement
(`1 + 4 − 5 = 0`), and a fast duration doubles the window to `0`, leaving it
below the claimed floor of 1. -/
theorem claim_C6_counterexample :
    getBlockNumbersForSearch ⟨0, 0, 0, 0, 20, true⟩ [0] [(0, 5)] 10 = some (5, 4) ∧
    autoAdjustBlockLimit ⟨0, 0, 0, 0, 20, true⟩ 5 4 1 = 0 ∧
    ¬ (1 ≤ autoAdjustBlockLimit ⟨0, 0, 0, 0, 20, true⟩ 5 4 1) := by decide

/-- Claim C6 (amended): provided the window size going into the adjustment is
at least 1 and the configured maximum is non-negative, every adjustment keeps
the floor of 1; an actual throttle adjustment (enabled, full-size) also
respects a positive configured maximum; and every transient step failure
resets the window size to exactly 1. -/
theorem claim_C6_amended {α β : Type} (env : Env α β) (st : Indexer)
    (store : Store) (addresses : List Addr) (current fromBlock toBlock delta : Int)
    (hl : 1 ≤ st.blockProcessLimit) (hmax : 0 ≤ st.blockProcessLimitMax) :
    1 ≤ autoAdjustBlockLimit st fromBlock toBlock delta ∧
    (st.blockAutoProcessLimit ∧ 1 + toBlock - fromBlock = st.blockProcessLimit →
      0 < st.blockProcessLimitMax →
      autoAdjustBlockLimit st fromBlock toBlock delta ≤ st.blockProcessLimitMax) ∧
    (∀ e st' store' tr,
      processAddresses env st store addresses current = (.error e, st', store', tr) →
      e.transient = true → st'.blockProcessLimit = 1) := by
  have htune : 1 ≤ tuneLadder st.blockProcessLimit delta := by
    unfold tuneLadder
    split_ifs
    · exact le_max_right _ _
    · exact le_max_right _ _
    · omega
    · omega
    · exact hl
  have hclamp : 1 ≤ clampToMax st.blockProcessLimitMax (tuneLadder st.blockProcessLimit delta) ∧
      (0 < st.blockProcessLimitMax →
        clampToMax st.blockProcessLimitMax (tuneLadder st.blockProcessLimit delta) ≤
          st.blockProcessLimitMax) := by
    unfold clampToMax
    split_ifs with h
    · exact ⟨by omega, fun _ => le_refl _⟩
    · refine ⟨htune, fun h0 => ?_⟩
      by_cases h2 : tuneLadder st.blockProcessLimit delta > st.blockProcessLimitMax
      · exact absurd ⟨by omega, h2⟩ h
      · omega
  refine ⟨?_, ?_, ?_⟩
  · unfold autoAdjustBlockLimit
    split_ifs
    · exact hclamp.1
    · exact hl
  · intro hg h0
    unfold autoAdjustBlockLimit
    rw [if_pos hg]
    exact hclamp.2 h0
  · intro e st' store' tr h htr
    unfold processAddresses at h
    split at h
    · injection h with h1 h2
      injection h1 with h1
      rw [← h1] at htr
      simp [IndexErr.transient] at htr
    · split at h
      · cases h
      · split at h
        · -- find raised: block_process_limit set back to 1
          injection h with h1 h2
          cases h2
          rfl
        · split at h
          split at h
          · -- commit count zero: ValueError, raised after the throttle scope
            injection h with h1 h2
            injection h1 with h1
            rw [← h1] at htr
            simp [IndexErr.transient] at htr
          · cases h

/-- Witness for claim C6 (amended): a full-size measurement at duration 1 with
window 10 and maximum 100 doubles the window to 20, inside the bounds. -/
theorem claim_C6_witness :
    1 ≤ autoAdjustBlockLimit ⟨0, 10, 100, 0, 20, true⟩ 1 10 1 ∧
    autoAdjustBlockLimit ⟨0, 10, 100, 0, 20, true⟩ 1 10 1 ≤ 100 :=
  ⟨(claim_C6_amended (⟨14, fun _ _ _ _ => .error .requestTimeout, fun _ => [], fun _ _ => 0⟩ :
        Env Nat Nat)
      ⟨0, 10, 100, 0, 20, true⟩ [(0, 5)] [0] 14 1 10 1 (by decide) (by decide)).1,
    (claim_C6_amended (⟨14, fun _ _ _ _ => .error .requestTimeout, fun _ => [], fun _ _ => 0⟩ :
        Env Nat Nat)
      ⟨0, 10, 100, 0, 20, true⟩ [(0, 5)] [0] 14 1 10 1 (by decide) (by decide)).2.1
      (by decide) (by decide)⟩

/-! ### Claims about the per-batch step -/

/-- Test for a write event in a trace. -/
def Event.isWrite : Event → Bool
  | .writeWatermarks .. => true
  | _ => false

/-- Claim C10: for a non-empty address set on which the range calculator yields
no range, the step returns the empty element list, no first block, the raw
current height as last block and the caught-up flag, and performs no store
write. -/
theorem claim_C10 {α β : Type} (env : Env α β) (st : Indexer) (store : Store)
    (addresses : List Addr) (current : Int)
    (haddr : addresses ≠ [])
    (hnone : getBlockNumbersForSearch st addresses store current = none) :
    processAddresses env st store addresses current =
      (.ok ⟨[], none, current, true⟩, st, store,
        [Event.readMinBlockNumber addresses (getFromBlockNumber addresses store)]) ∧
    ((processAddresses env st store addresses current).2.2.2).filter Event.isWrite = [] := by
  have hne : addresses.isEmpty = false := by
    cases addresses
    · exact absurd rfl haddr
    · rfl
  have hmain : processAddresses env st store addresses current =
      (.ok ⟨[], none, current, true⟩, st, store,
        [Event.readMinBlockNumber addresses (getFromBlockNumber addresses store)]) := by
    unfold processAddresses
    rw [if_neg (by simp [hne]), hnone]
  exact ⟨hmain, by rw [hmain]; rfl⟩

/-- Witness for claim C10: the address is not monitored, so the watermark set
is empty and the step reports the raw height 7 with no write. -/
theorem claim_C10_witness :
    ([3] : List Addr) ≠ [] ∧
    getBlockNumbersForSearch ⟨0, 10, 0, 0, 20, true⟩ [3] [(0, 5)] 7 = none ∧
    (processAddresses (⟨7, fun _ _ _ _ => .ok [], fun _ => [], fun _ _ => 0⟩ : Env Nat Nat)
        ⟨0, 10, 0, 0, 20, true⟩ [(0, 5)] [3] 7 =
      (.ok ⟨[], none, 7, true⟩, ⟨0, 10, 0, 0, 20, true⟩, [(0, 5)],
        [Event.readMinBlockNumber [3] none]) ∧
      ((processAddresses (⟨7, fun _ _ _ _ => .ok [], fun _ => [], fun _ _ => 0⟩ : Env Nat Nat)
          ⟨0, 10, 0, 0, 20, true⟩ [(0, 5)] [3] 7).2.2.2).filter Event.isWrite = []) :=
  ⟨by decide, by decide,
    claim_C10 (⟨7, fun _ _ _ _ => .ok [], fun _ => [], fun _ _ => 0⟩ : Env Nat Nat)
      ⟨0, 10, 0, 0, 20, true⟩ [(0, 5)] [3] 7 (by decide) (by decide)⟩

/-- Claim C2: when `find_relevant_elements` raises a transient error the step
resets the window size to 1, leaves the store untouched (no commit, no write
event), and re-raises the same error. -/
theorem claim_C2 {α β : Type} (env : Env α β) (st : Indexer) (store : Store)
    (addresses : List Addr) (current fromBlock toBlock : Int) (e : IndexErr)
    (haddr : addresses ≠ [])
    (hparams : getBlockNumbersForSearch st addresses store current = some (fromBlock, toBlock))
    (hfind : env.find addresses fromBlock toBlock current = .error e)
    (_htransient : e.transient = true) :
    processAddresses env st store addresses current =
      (.error e, { st with blockProcessLimit := 1 }, store,
        [Event.readMinBlockNumber addresses (getFromBlockNumber addresses store)]) := by
  have hne : addresses.isEmpty = false := by
    cases addresses
    · exact absurd rfl haddr
    · rfl
  unfold processAddresses
  rw [if_neg (by simp [hne]), hparams]
  simp only [hfind]

/-- Witness for claim C2: a `Timeout` from `find` over range `(5, 14)` resets
the window from 10 to 1 and leaves the watermark row at 5. -/
theorem claim_C2_witness :
    ([0] : List Addr) ≠ [] ∧
    getBlockNumbersForSearch ⟨0, 10, 0, 0, 20, false⟩ [0] [(0, 5)] 14 = some (5, 14) ∧
    (⟨14, fun _ _ _ _ => .error .requestTimeout, fun _ => [], fun _ _ => 0⟩ :
        Env Nat Nat).find [0] 5 14 14 = .error .requestTimeout ∧
    IndexErr.requestTimeout.transient = true ∧
    processAddresses (⟨14, fun _ _ _ _ => .error .requestTimeout, fun _ => [], fun _ _ => 0⟩ :
        Env Nat Nat) ⟨0, 10, 0, 0, 20, false⟩ [(0, 5)] [0] 14 =
      (.error .requestTimeout, ⟨0, 1, 0, 0, 20, false⟩, [(0, 5)],
        [Event.readMinBlockNumber [0] (some 5)]) :=
  ⟨by decide, by decide, rfl, by decide,
    claim_C2 (⟨14, fun _ _ _ _ => .error .requestTimeout, fun _ => [], fun _ _ => 0⟩ :
        Env Nat Nat) ⟨0, 10, 0, 0, 20, false⟩ [(0, 5)] [0] 14 5 14 .requestTimeout
      (by decide) (by decide) rfl (by decide)⟩

/-- Claim C1 exhibit (code bug): committing range `(5, 14)` for two monitored
addresses with watermarks 5 and 100 updates exactly the one row inside
`[5, 15)`, so the count 1 differs from the address count 2 — yet the step
returns success: `update_monitored_addresses` returns the raw count (despite
its `-> bool` annotation and the computed `all_updated`), and the caller
raises the consistency-violation `ValueError` only when that count is 0. -/
theorem claim_C1_exhibit :
    (updateMonitoredAddresses [0, 1] 5 14 [(0, 5), (1, 100)]).2 = 1 ∧
    (1 : Nat) ≠ ([0, 1] : List Addr).length ∧
    processAddresses (⟨14, fun _ _ _ _ => .ok [], fun _ => [], fun _ _ => 0⟩ : Env Nat Nat)
        ⟨0, 10, 0, 0, 20, false⟩ [(0, 5), (1, 100)] [0, 1] 14 =
      (.ok ⟨[], some 5, 14, true⟩, ⟨0, 10, 0, 0, 20, false⟩, [(0, 15), (1, 100)],
        [Event.readMinBlockNumber [0, 1] (some 5),
         Event.writeWatermarks [0, 1] 5 14 1]) :=
  ⟨rfl, by decide, rfl⟩

/-! ### Batch aggregation helpers and step characterizations -/

def batchFroms (bs : List Batch) : List Int := bs.map (·.1)

def batchTos (bs : List Batch) : List Int := bs.map (·.2.1)

def sumCounts (bs : List Batch) : Nat := (bs.map (·.2.2)).sum

/-- Maximum of a list of block numbers, mirror of `minimumWatermark`. -/
def maximumBlock : List Int → Option Int
  | [] => none
  | w :: ws =>
    match maximumBlock ws with
    | none => some w
    | some m => some (max w m)

theorem maximumBlock_mem : ∀ {l : List Int} {m : Int},
    maximumBlock l = some m → m ∈ l := by
  intro l
  induction l with
  | nil => intro m h; simp [maximumBlock] at h
  | cons w ws ih =>
    intro m h
    unfold maximumBlock at h
    cases hw : maximumBlock ws with
    | none =>
      rw [hw] at h
      injection h with h
      subst h
      exact List.mem_cons_self _ _
    | some m' =>
      rw [hw] at h
      injection h with h
      subst h
      rcases max_cases w m' with ⟨heq, _⟩ | ⟨heq, _⟩
      · rw [heq]; exact List.mem_cons_self _ _
      · rw [heq]; exact List.mem_cons_of_mem _ (ih hw)

theorem maximumBlock_ge : ∀ {l : List Int} {m w : Int},
    maximumBlock l = some m → w ∈ l → w ≤ m := by
  intro l
  induction l with
  | nil => intro m w h _; simp [maximumBlock] at h
  | cons x xs ih =>
    intro m w h hw
    unfold maximumBlock at h
    cases hx : maximumBlock xs with
    | none =>
      rw [hx] at h
      injection h with h
      subst h
      rcases List.mem_cons.mp hw with rfl | hw'
      · exact le_refl _
      · cases xs with
        | nil => cases hw'
        | cons y ys =>
          exfalso
          unfold maximumBlock at hx
          cases hmy : maximumBlock ys <;> rw [hmy] at hx <;> cases hx
    | some m' =>
      rw [hx] at h
      injection h with h
      subst h
      rcases List.mem_cons.mp hw with rfl | hw'
      · exact le_max_left _ _
      · exact le_trans (ih hx hw') (le_max_right _ _)

theorem maximumBlock_eq_of_mem_of_le {l : List Int} {M : Int}
    (hmem : M ∈ l) (hle : ∀ w ∈ l, w ≤ M) : maximumBlock l = some M := by
  obtain ⟨m, hm⟩ :=
    (by
      cases l with
      | nil => cases hmem
      | cons w ws =>
        unfold maximumBlock
        cases maximumBlock ws with
        | none => exact ⟨w, rfl⟩
        | some m' => exact ⟨max w m', rfl⟩ :
      ∃ m, maximumBlock l = some m)
  have h1 : m ≤ M := hle m (maximumBlock_mem hm)
  have h2 : M ≤ m := maximumBlock_ge hm hmem
  rw [hm, le_antisymm h1 h2]

/-- The fold the second tier's `start_block` bookkeeping performs over the
batch `from` values. -/
def foldStartBlock (sb : Option Int) : List Int → Option Int
  | [] => sb
  | f :: fs =>
    match sb with
    | none => foldStartBlock (some f) fs
    | some s => foldStartBlock (some (if f < s then f else s)) fs

theorem foldStartBlock_eq_min : ∀ (fs : List Int) (sb : Option Int),
    foldStartBlock sb fs =
      match sb, minimumWatermark fs with
      | none, r => r
      | some s, none => some s
      | some s, some m => some (min s m) := by
  intro fs
  induction fs with
  | nil => intro sb; cases sb <;> rfl
  | cons f fs ih =>
    intro sb
    have hcons : minimumWatermark (f :: fs) =
        match minimumWatermark fs with
        | none => some f
        | some m => some (min f m) := rfl
    cases sb with
    | none =>
      show foldStartBlock (some f) fs = _
      rw [ih, hcons]
      cases hfs : minimumWatermark fs <;> simp only
    | some s =>
      show foldStartBlock (some (if f < s then f else s)) fs = _
      rw [ih, hcons]
      cases hfs : minimumWatermark fs <;> simp only <;> congr 1 <;>
        split_ifs <;> omega

theorem minimumWatermark_append : ∀ (xs ys : List Int),
    minimumWatermark (xs ++ ys) =
      match minimumWatermark xs, minimumWatermark ys with
      | none, r => r
      | some a, none => some a
      | some a, some b => some (min a b) := by
  intro xs ys
  induction xs with
  | nil => cases hys : minimumWatermark ys <;> rw [List.nil_append, hys] <;> rfl
  | cons x xs ih =>
    have hL : minimumWatermark ((x :: xs) ++ ys) =
        match minimumWatermark (xs ++ ys) with
        | none => some x
        | some m => some (min x m) := rfl
    have hR : minimumWatermark (x :: xs) =
        match minimumWatermark xs with
        | none => some x
        | some m => some (min x m) := rfl
    rw [hL, hR, ih]
    cases hxs : minimumWatermark xs <;> cases hys : minimumWatermark ys <;>
      simp only <;> first | rfl | (congr 1; omega)

/-! ### Step characterizations and the tier invariant -/

theorem processAddresses_find_error_eq {α β : Type} (env : Env α β) (st : Indexer)
    (store : Store) (addresses : List Addr) (current fromBlock toBlock : Int) (e : IndexErr)
    (haddr : addresses.isEmpty = false)
    (hsome : getBlockNumbersForSearch st addresses store current = some (fromBlock, toBlock))
    (hfind : env.find addresses fromBlock toBlock current = .error e) :
    processAddresses env st store addresses current =
      (.error e, { st with blockProcessLimit := 1 }, store,
        [Event.readMinBlockNumber addresses (getFromBlockNumber addresses store)]) := by
  unfold processAddresses
  rw [if_neg (by simp [haddr]), hsome]
  simp only [hfind]

theorem processAddresses_count_zero_eq {α β : Type} (env : Env α β) (st : Indexer)
    (store : Store) (addresses : List Addr) (current fromBlock toBlock : Int)
    (elements : List α)
    (haddr : addresses.isEmpty = false)
    (hsome : getBlockNumbersForSearch st addresses store current = some (fromBlock, toBlock))
    (hfind : env.find addresses fromBlock toBlock current = .ok elements)
    (hcount : (updateMonitoredAddresses addresses fromBlock toBlock store).2 = 0) :
    processAddresses env st store addresses current =
      (.error .possibleReorg,
        { st with blockProcessLimit :=
            autoAdjustBlockLimit st fromBlock toBlock (env.findDelta fromBlock toBlock) },
        (updateMonitoredAddresses addresses fromBlock toBlock store).1,
        [Event.readMinBlockNumber addresses (getFromBlockNumber addresses store),
         Event.writeWatermarks addresses fromBlock toBlock
           (updateMonitoredAddresses addresses fromBlock toBlock store).2]) := by
  unfold processAddresses
  rw [if_neg (by simp [haddr]), hsome]
  simp only [hfind]
  rcases hupd : updateMonitoredAddresses addresses fromBlock toBlock store with ⟨ustore, count⟩
  rw [hupd] at hcount
  simp only at hcount
  subst hcount
  simp [hupd]

theorem processAddresses_ok_eq {α β : Type} (env : Env α β) (st : Indexer)
    (store : Store) (addresses : List Addr) (current fromBlock toBlock : Int)
    (elements : List α)
    (haddr : addresses.isEmpty = false)
    (hsome : getBlockNumbersForSearch st addresses store current = some (fromBlock, toBlock))
    (hfind : env.find addresses fromBlock toBlock current = .ok elements)
    (hcount : (updateMonitoredAddresses addresses fromBlock toBlock store).2 ≠ 0) :
    processAddresses env st store addresses current =
      (.ok ⟨(elements.map env.processElement).flatten, some fromBlock, toBlock,
          toBlock == current - st.confirmations⟩,
        { st with blockProcessLimit :=
            autoAdjustBlockLimit st fromBlock toBlock (env.findDelta fromBlock toBlock) },
        (updateMonitoredAddresses addresses fromBlock toBlock store).1,
        [Event.readMinBlockNumber addresses (getFromBlockNumber addresses store),
         Event.writeWatermarks addresses fromBlock toBlock
           (updateMonitoredAddresses addresses fromBlock toBlock store).2]) := by
  unfold processAddresses
  rw [if_neg (by simp [haddr]), hsome]
  simp only [hfind]
  rcases hupd : updateMonitoredAddresses addresses fromBlock toBlock store with ⟨ustore, count⟩
  rw [hupd] at hcount
  simp only at hcount
  simp [hupd, hcount]

/-- Loop invariant for a tier's drain loop: the tier's address set has a
minimum watermark and it is at most `current − confirmations`. -/
def TierInv (st : Indexer) (addresses : List Addr) (store : Store) (current : Int) : Prop :=
  ∃ m, getFromBlockNumber addresses store = some m ∧ m ≤ current - st.confirmations

theorem paramsSome_of_inv {st : Indexer} {addresses : List Addr} {store : Store}
    {current : Int} (hinv : TierInv st addresses store current) :
    ∃ fromBlock toBlock,
      getBlockNumbersForSearch st addresses store current = some (fromBlock, toBlock) ∧
      toBlock ≤ current - st.confirmations := by
  obtain ⟨m, hm, hle⟩ := hinv
  have h1 : ¬ (current - m < st.confirmations) := by omega
  simp only [getBlockNumbersForSearch, getToBlockNumber, hm, if_neg h1]
  exact ⟨_, _, rfl, min_le_right _ _⟩

theorem getFromBlockNumber_le_of_mem {addresses : List Addr} {store : Store}
    {p : Addr × Int}
    (haddr : addresses ≠ []) (hp : p ∈ store) (hc : p.1 ∈ addresses) :
    ∃ m, getFromBlockNumber addresses store = some m ∧ m ≤ p.2 := by
  have hne : addresses.isEmpty = false := by
    cases addresses
    · exact absurd rfl haddr
    · rfl
  have hmem : p.2 ∈ watermarksFor addresses store := by
    unfold watermarksFor
    rw [hne]
    simp only [Bool.false_eq_true, if_false]
    exact List.mem_map.mpr ⟨p, List.mem_filter.mpr ⟨hp, by simpa using hc⟩, rfl⟩
  obtain ⟨m, hm⟩ := minimumWatermark_isSome (List.ne_nil_of_mem hmem)
  exact ⟨m, hm, minimumWatermark_le hm hmem⟩

theorem tierInv_preserved {st : Indexer} {addresses : List Addr} {store : Store}
    {current fromBlock toBlock : Int}
    (haddr : addresses ≠ [])
    (hcount : (updateMonitoredAddresses addresses fromBlock toBlock store).2 ≠ 0)
    (ht : toBlock + 1 ≤ current - st.confirmations) :
    TierInv st addresses (updateMonitoredAddresses addresses fromBlock toBlock store).1
      current := by
  -- some row was selected; in the updated store it carries `toBlock + 1`
  have hfilter : (store.filter (rowMatches addresses fromBlock toBlock)) ≠ [] := by
    intro hnil
    apply hcount
    show (store.filter (rowMatches addresses fromBlock toBlock)).length = 0
    rw [hnil]
    rfl
  obtain ⟨q, hq⟩ := List.exists_mem_of_ne_nil _ hfilter
  have hqstore : q ∈ store := List.mem_of_mem_filter hq
  have hqmatch : rowMatches addresses fromBlock toBlock q = true := List.of_mem_filter hq
  have hqaddr : q.1 ∈ addresses := by
    unfold rowMatches at hqmatch
    simp only [Bool.and_eq_true] at hqmatch
    exact List.mem_of_elem_eq_true hqmatch.1.1
  have hq' : (q.1, toBlock + 1) ∈ (updateMonitoredAddresses addresses fromBlock toBlock store).1 := by
    unfold updateMonitoredAddresses
    simp only
    refine List.mem_map.mpr ⟨q, hqstore, ?_⟩
    rw [if_pos hqmatch]
  obtain ⟨m, hm, hmle⟩ :=
    getFromBlockNumber_le_of_mem (p := (q.1, toBlock + 1)) haddr hq' hqaddr
  exact ⟨m, hm, le_trans hmle ht⟩

theorem tierInv_almostUpdated {st : Indexer} {store : Store} {current : Int}
    (hne : getAlmostUpdatedAddresses st store current ≠ []) :
    TierInv st (getAlmostUpdatedAddresses st store current) store current := by
  obtain ⟨a, ha⟩ := List.exists_mem_of_ne_nil _ hne
  unfold getAlmostUpdatedAddresses at ha
  obtain ⟨p, hpfilter, rfl⟩ := List.mem_map.mp ha
  have hp : p ∈ store := List.mem_of_mem_filter hpfilter
  have hcond := List.of_mem_filter hpfilter
  simp only [decide_eq_true_eq] at hcond
  have hpaddr : p.1 ∈ getAlmostUpdatedAddresses st store current := ha
  obtain ⟨m, hm, hmle⟩ := getFromBlockNumber_le_of_mem hne hp hpaddr
  exact ⟨m, hm, by omega⟩

theorem tierInv_notUpdated {st : Indexer} {store : Store} {current : Int}
    (hne : getNotUpdatedAddresses st store current ≠ []) :
    TierInv st (getNotUpdatedAddresses st store current) store current := by
  obtain ⟨a, ha⟩ := List.exists_mem_of_ne_nil _ hne
  unfold getNotUpdatedAddresses at ha
  obtain ⟨p, hpfilter, rfl⟩ := List.mem_map.mp ha
  have hp : p ∈ store := List.mem_of_mem_filter hpfilter
  have hcond := List.of_mem_filter hpfilter
  simp only [decide_eq_true_eq] at hcond
  have hpaddr : p.1 ∈ getNotUpdatedAddresses st store current := ha
  obtain ⟨m, hm, hmle⟩ := getFromBlockNumber_le_of_mem hne hp hpaddr
  exact ⟨m, hm, by omega⟩

/-! ### The dead increment of the second tier -/

theorem notUpdatedLoop_eq {α β : Type} (env : Env α β) (addresses : List Addr)
    (current : Int) (haddr : addresses ≠ []) :
    ∀ (fuel : Nat) (st : Indexer) (store : Store) (total : Nat) (sb : Option Int)
      (bs : List Batch),
    TierInv st addresses store current →
    processNotUpdatedLoop env addresses current fuel st store total sb bs =
      processNotUpdatedLoopNoInc env addresses current fuel st store total sb bs := by
  have hne : addresses.isEmpty = false := by
    cases addresses
    · exact absurd rfl haddr
    · rfl
  intro fuel
  induction fuel with
  | zero => intro st store total sb bs _; rfl
  | succ fuel ih =>
    intro st store total sb bs hinv
    obtain ⟨f, t, hsome, htle⟩ := paramsSome_of_inv hinv
    cases hfind : env.find addresses f t current with
    | error e =>
      have hstep :=
        processAddresses_find_error_eq env st store addresses current f t e hne hsome hfind
      simp only [processNotUpdatedLoop, processNotUpdatedLoopNoInc, hstep]
    | ok elements =>
      by_cases hcount : (updateMonitoredAddresses addresses f t store).2 = 0
      · have hstep :=
          processAddresses_count_zero_eq env st store addresses current f t elements
            hne hsome hfind hcount
        simp only [processNotUpdatedLoop, processNotUpdatedLoopNoInc, hstep]
      · have hstep :=
          processAddresses_ok_eq env st store addresses current f t elements
            hne hsome hfind hcount
        by_cases hupd : t = current - st.confirmations
        · cases sb with
          | none =>
            simp only [processNotUpdatedLoop, processNotUpdatedLoopNoInc, hstep,
              beq_iff_eq, if_pos hupd]
          | some s =>
            simp only [processNotUpdatedLoop, processNotUpdatedLoopNoInc, hstep,
              beq_iff_eq, if_pos hupd]
        · have hinv' : TierInv
              { st with blockProcessLimit := autoAdjustBlockLimit st f t (env.findDelta f t) }
              addresses (updateMonitoredAddresses addresses f t store).1 current :=
            tierInv_preserved haddr hcount
              (by show t + 1 ≤ current - st.confirmations; omega)
          cases sb with
          | none =>
            simp only [processNotUpdatedLoop, processNotUpdatedLoopNoInc, hstep,
              beq_iff_eq, if_neg hupd]
            rw [ih _ _ _ _ _ hinv']
          | some s =>
            simp only [processNotUpdatedLoop, processNotUpdatedLoopNoInc, hstep,
              beq_iff_eq, if_neg hupd]
            rw [ih _ _ _ _ _ hinv']

/-- Claim C9: removing the trailing `from_block_number += 1` of the second
tier's loop leaves `start` observationally unchanged: the same return value,
the same final engine state and store, the same sequence of store reads and
writes, and the same batches, for every environment, fuel, state and store.
Each iteration rebinds `from_block_number` from the `process_addresses`
result, which is derived from the persisted watermark, so the increment is
dead. -/
theorem claim_C9 {α β : Type} (env : Env α β) (fuel : Nat) (st : Indexer)
    (store : Store) :
    startRun env fuel st store = startRunNoInc env fuel st store := by
  unfold startRun startRunNoInc
  rcases h1 : runTier1 env fuel st store with ⟨res1, st1, store1, tr1⟩
  cases res1 with
  | error e => rfl
  | ok out =>
    rcases out with ⟨t1, sb1, lb1, b1⟩
    simp only
    unfold runTier2With
    by_cases hnil : getNotUpdatedAddresses st1 store1 env.currentBlock = []
    · rw [hnil]; rfl
    · have hempty : (getNotUpdatedAddresses st1 store1 env.currentBlock).isEmpty = false := by
        cases h : getNotUpdatedAddresses st1 store1 env.currentBlock
        · exact absurd h hnil
        · rfl
      simp only [hempty, Bool.false_eq_true, if_false]
      rw [notUpdatedLoop_eq env _ env.currentBlock hnil fuel st1 store1 t1 sb1 []
        (tierInv_notUpdated hnil)]

/-! ### Aggregate behaviour of the tier loops -/

theorem almostLoop_ok {α β : Type} (env : Env α β) (addresses : List Addr)
    (current : Int) (haddr : addresses ≠ []) :
    ∀ (fuel : Nat) (st : Indexer) (store : Store) (total : Nat) (sb : Option Int)
      (bs : List Batch) (total' : Nat) (sb' : Option Int) (lastTo : Int)
      (bs' : List Batch) (st' : Indexer) (store' : Store) (tr : List Event),
    TierInv st addresses store current →
    processAlmostUpdatedLoop env addresses current fuel st store total sb bs =
      (.ok (total', sb', lastTo, bs'), st', store', tr) →
    ∃ b0 nbs, bs' = bs ++ b0 :: nbs ∧
      total' = total + sumCounts (b0 :: nbs) ∧
      (∀ b ∈ b0 :: nbs, b.2.1 ≤ current - st.confirmations) ∧
      lastTo = current - st.confirmations ∧
      lastTo ∈ batchTos (b0 :: nbs) ∧
      sb' = (match sb with | none => some b0.1 | some s => some s) ∧
      st'.confirmations = st.confirmations := by
  have hne : addresses.isEmpty = false := by
    cases addresses
    · exact absurd rfl haddr
    · rfl
  intro fuel
  induction fuel with
  | zero =>
    intro st store total sb bs total' sb' lastTo bs' st' store' tr _ h
    simp [processAlmostUpdatedLoop] at h
  | succ fuel ih =>
    intro st store total sb bs total' sb' lastTo bs' st' store' tr hinv h
    obtain ⟨f, t, hsome, htle⟩ := paramsSome_of_inv hinv
    rw [show processAlmostUpdatedLoop env addresses current (fuel + 1)
          st store total sb bs =
        match processAddresses env st store addresses current with
        | (.error e, st', store', tr) => (.error (.step e), st', store', tr)
        | (.ok r, st', store', tr) =>
          let total' := total + r.processed.length
          let startBlock' := if sb.isNone then r.firstBlock else sb
          let batches' :=
            match r.firstBlock with
            | some f => bs ++ [(f, r.lastBlock, r.processed.length)]
            | none => bs
          if r.updated then (.ok (total', startBlock', r.lastBlock, batches'), st', store', tr)
          else
            match processAlmostUpdatedLoop env addresses current fuel st' store'
                total' startBlock' batches' with
            | (out, st2, store2, tr2) => (out, st2, store2, tr ++ tr2) from rfl] at h
    cases hfind : env.find addresses f t current with
    | error e =>
      rw [processAddresses_find_error_eq env st store addresses current f t e
        hne hsome hfind] at h
      simp at h
    | ok elements =>
      by_cases hcount : (updateMonitoredAddresses addresses f t store).2 = 0
      · rw [processAddresses_count_zero_eq env st store addresses current f t elements
          hne hsome hfind hcount] at h
        simp at h
      · rw [processAddresses_ok_eq env st store addresses current f t elements
          hne hsome hfind hcount] at h
        simp only at h
        by_cases hupd : t = current - st.confirmations
        · rw [if_pos (by simpa using hupd)] at h
          simp only [Prod.mk.injEq, Except.ok.injEq] at h
          obtain ⟨⟨ht1, hsb, hlast, hbs⟩, hst, hstore, htr⟩ := h
          refine ⟨(f, t, (elements.map env.processElement).flatten.length), [],
            hbs.symm, ?_, ?_, ?_, ?_, ?_, ?_⟩
          · rw [← ht1]; simp [sumCounts]
          · intro b hb
            simp only [List.mem_cons, List.not_mem_nil, or_false] at hb
            subst hb
            exact htle
          · omega
          · rw [← hlast]; simp [batchTos, hupd]
          · rw [← hsb]; cases sb <;> simp
          · rw [← hst]
        · rw [if_neg (by simpa using hupd)] at h
          rcases hrec : processAlmostUpdatedLoop env addresses current fuel
              { st with blockProcessLimit := autoAdjustBlockLimit st f t (env.findDelta f t) }
              (updateMonitoredAddresses addresses f t store).1
              (total + (elements.map env.processElement).flatten.length)
              (if sb.isNone then some f else sb)
              (bs ++ [(f, t, (elements.map env.processElement).flatten.length)])
            with ⟨out2, st2, store2, tr2⟩
          rw [hrec] at h
          simp only [Prod.mk.injEq] at h
          obtain ⟨hout, hst2, hstore2, htr⟩ := h
          subst hout
          subst hst2
          subst hstore2
          have hinv' : TierInv
              { st with blockProcessLimit := autoAdjustBlockLimit st f t (env.findDelta f t) }
              addresses (updateMonitoredAddresses addresses f t store).1 current :=
            tierInv_preserved haddr hcount
              (by show t + 1 ≤ current - st.confirmations; omega)
          obtain ⟨b0', nbs', hbs', htotal', hbound', hlast', hmem', hsb', hconf'⟩ :=
            ih _ _ _ _ _ _ _ _ _ _ _ _ hinv' hrec
          refine ⟨(f, t, (elements.map env.processElement).flatten.length), b0' :: nbs',
            ?_, ?_, ?_, ?_, ?_, ?_, ?_⟩
          · rw [hbs']; simp
          · rw [htotal']; simp only [sumCounts, List.map_cons, List.sum_cons]; omega
          · intro b hb
            rcases List.mem_cons.mp hb with rfl | hb'
            · exact htle
            · exact hbound' b hb'
          · exact hlast'
          · simp only [batchTos, List.map_cons]
            exact List.mem_cons_of_mem _ hmem'
          · rw [hsb']
            cases sb <;> simp
          · exact hconf'

theorem foldStartBlock_cons_some (s f : Int) (fs : List Int) :
    foldStartBlock (some s) (f :: fs) =
      foldStartBlock (some (if f < s then f else s)) fs := rfl

theorem notUpdatedLoop_ok {α β : Type} (env : Env α β) (addresses : List Addr)
    (current : Int) (haddr : addresses ≠ []) :
    ∀ (fuel : Nat) (st : Indexer) (store : Store) (total : Nat) (sb : Option Int)
      (bs : List Batch) (total' : Nat) (sb' : Option Int) (lastTo : Int)
      (bs' : List Batch) (st' : Indexer) (store' : Store) (tr : List Event),
    TierInv st addresses store current →
    processNotUpdatedLoop env addresses current fuel st store total sb bs =
      (.ok (total', sb', lastTo, bs'), st', store', tr) →
    ∃ b0 nbs, bs' = bs ++ b0 :: nbs ∧
      total' = total + sumCounts (b0 :: nbs) ∧
      (∀ b ∈ b0 :: nbs, b.2.1 ≤ current - st.confirmations) ∧
      lastTo = current - st.confirmations ∧
      lastTo ∈ batchTos (b0 :: nbs) ∧
      sb' = foldStartBlock sb (batchFroms (b0 :: nbs)) ∧
      st'.confirmations = st.confirmations := by
  have hne : addresses.isEmpty = false := by
    cases addresses
    · exact absurd rfl haddr
    · rfl
  intro fuel
  induction fuel with
  | zero =>
    intro st store total sb bs total' sb' lastTo bs' st' store' tr _ h
    simp [processNotUpdatedLoop] at h
  | succ fuel ih =>
    intro st store total sb bs total' sb' lastTo bs' st' store' tr hinv h
    obtain ⟨f, t, hsome, htle⟩ := paramsSome_of_inv hinv
    simp only [processNotUpdatedLoop] at h
    cases hfind : env.find addresses f t current with
    | error e =>
      rw [processAddresses_find_error_eq env st store addresses current f t e
        hne hsome hfind] at h
      simp at h
    | ok elements =>
      by_cases hcount : (updateMonitoredAddresses addresses f t store).2 = 0
      · rw [processAddresses_count_zero_eq env st store addresses current f t elements
          hne hsome hfind hcount] at h
        simp at h
      · rw [processAddresses_ok_eq env st store addresses current f t elements
          hne hsome hfind hcount] at h
        simp only at h
        by_cases hupd : t = current - st.confirmations
        · cases sb with
          | none =>
            simp only at h
            rw [if_pos (by simpa using hupd)] at h
            simp only [Prod.mk.injEq, Except.ok.injEq] at h
            obtain ⟨⟨ht1, hsb, hlast, hbs⟩, hst, hstore, htr⟩ := h
            refine ⟨(f, t, (elements.map env.processElement).flatten.length), [],
              hbs.symm, ?_, ?_, ?_, ?_, ?_, ?_⟩
            · rw [← ht1]; simp [sumCounts]
            · intro b hb
              simp only [List.mem_cons, List.not_mem_nil, or_false] at hb
              subst hb
              exact htle
            · omega
            · rw [← hlast]; simp [batchTos, hupd]
            · rw [← hsb]; simp [foldStartBlock, batchFroms]
            · rw [← hst]
          | some s =>
            simp only at h
            rw [if_pos (by simpa using hupd)] at h
            simp only [Prod.mk.injEq, Except.ok.injEq] at h
            obtain ⟨⟨ht1, hsb, hlast, hbs⟩, hst, hstore, htr⟩ := h
            refine ⟨(f, t, (elements.map env.processElement).flatten.length), [],
              hbs.symm, ?_, ?_, ?_, ?_, ?_, ?_⟩
            · rw [← ht1]; simp [sumCounts]
            · intro b hb
              simp only [List.mem_cons, List.not_mem_nil, or_false] at hb
              subst hb
              exact htle
            · omega
            · rw [← hlast]; simp [batchTos, hupd]
            · rw [← hsb]
              simp only [batchFroms, List.map_cons, List.map_nil]
              rw [foldStartBlock_cons_some]
              split_ifs <;> rfl
            · rw [← hst]
        · cases sb with
          | none =>
            simp only at h
            rw [if_neg (by simpa using hupd)] at h
            rcases hrec : processNotUpdatedLoop env addresses current fuel
                { st with blockProcessLimit := autoAdjustBlockLimit st f t (env.findDelta f t) }
                (updateMonitoredAddresses addresses f t store).1
                (total + (elements.map env.processElement).flatten.length)
                (some f)
                (bs ++ [(f, t, (elements.map env.processElement).flatten.length)])
              with ⟨out2, st2, store2, tr2⟩
            rw [hrec] at h
            simp only [Prod.mk.injEq] at h
            obtain ⟨hout, hst2, hstore2, htr⟩ := h
            subst hout
            subst hst2
            subst hstore2
            have hinv' : TierInv
                { st with blockProcessLimit := autoAdjustBlockLimit st f t (env.findDelta f t) }
                addresses (updateMonitoredAddresses addresses f t store).1 current :=
              tierInv_preserved haddr hcount
                (by show t + 1 ≤ current - st.confirmations; omega)
            obtain ⟨b0', nbs', hbs', htotal', hbound', hlast', hmem', hsb', hconf'⟩ :=
              ih _ _ _ _ _ _ _ _ _ _ _ _ hinv' hrec
            refine ⟨(f, t, (elements.map env.processElement).flatten.length), b0' :: nbs',
              ?_, ?_, ?_, ?_, ?_, ?_, ?_⟩
            · rw [hbs']; simp
            · rw [htotal']; simp only [sumCounts, List.map_cons, List.sum_cons]; omega
            · intro b hb
              rcases List.mem_cons.mp hb with rfl | hb'
              · exact htle
              · exact hbound' b hb'
            · exact hlast'
            · simp only [batchTos, List.map_cons]
              exact List.mem_cons_of_mem _ hmem'
            · rw [hsb']
              simp only [batchFroms, List.map_cons]
              rfl
            · exact hconf'
          | some s =>
            simp only at h
            rw [if_neg (by simpa using hupd)] at h
            rcases hrec : processNotUpdatedLoop env addresses current fuel
                { st with blockProcessLimit := autoAdjustBlockLimit st f t (env.findDelta f t) }
                (updateMonitoredAddresses addresses f t store).1
                (total + (elements.map env.processElement).flatten.length)
                (if f < s then some f else some s)
                (bs ++ [(f, t, (elements.map env.processElement).flatten.length)])
              with ⟨out2, st2, store2, tr2⟩
            rw [hrec] at h
            simp only [Prod.mk.injEq] at h
            obtain ⟨hout, hst2, hstore2, htr⟩ := h
            subst hout
            subst hst2
            subst hstore2
            have hinv' : TierInv
                { st with blockProcessLimit := autoAdjustBlockLimit st f t (env.findDelta f t) }
                addresses (updateMonitoredAddresses addresses f t store).1 current :=
              tierInv_preserved haddr hcount
                (by show t + 1 ≤ current - st.confirmations; omega)
            obtain ⟨b0', nbs', hbs', htotal', hbound', hlast', hmem', hsb', hconf'⟩ :=
              ih _ _ _ _ _ _ _ _ _ _ _ _ hinv' hrec
            refine ⟨(f, t, (elements.map env.processElement).flatten.length), b0' :: nbs',
              ?_, ?_, ?_, ?_, ?_, ?_, ?_⟩
            · rw [hbs']; simp
            · rw [htotal']; simp only [sumCounts, List.map_cons, List.sum_cons]; omega
            · intro b hb
              rcases List.mem_cons.mp hb with rfl | hb'
              · exact htle
              · exact hbound' b hb'
            · exact hlast'
            · simp only [batchTos, List.map_cons]
              exact List.mem_cons_of_mem _ hmem'
            · rw [hsb']
              simp only [batchFroms, List.map_cons]
              rw [foldStartBlock_cons_some]
              congr 1
              split_ifs <;> rfl
            · exact hconf'

theorem runTier1_ok {α β : Type} (env : Env α β) (fuel : Nat) (st : Indexer)
    (store : Store) (t1 : Nat) (sb1 lb1 : Option Int) (b1 : List Batch)
    (st1 : Indexer) (store1 : Store) (tr1 : List Event)
    (h : runTier1 env fuel st store = (.ok (t1, sb1, lb1, b1), st1, store1, tr1)) :
    st1.confirmations = st.confirmations ∧
    t1 = sumCounts b1 ∧
    (∀ b ∈ b1, b.2.1 ≤ env.currentBlock - st.confirmations) ∧
    (b1 = [] → sb1 = none ∧ lb1 = none) ∧
    (∀ b0 r, b1 = b0 :: r →
      sb1 = some b0.1 ∧ lb1 = some (env.currentBlock - st.confirmations) ∧
      (env.currentBlock - st.confirmations) ∈ batchTos b1) := by
  simp only [runTier1] at h
  by_cases hnil : getAlmostUpdatedAddresses st store env.currentBlock = []
  · rw [hnil] at h
    simp only [List.isEmpty_nil, if_true, Prod.mk.injEq, Except.ok.injEq] at h
    obtain ⟨⟨ht, hsb, hlb, hb⟩, hst, hstore, htr⟩ := h
    subst ht
    subst hsb
    subst hlb
    subst hb
    subst hst
    refine ⟨rfl, rfl, ?_, fun _ => ⟨rfl, rfl⟩, ?_⟩
    · intro b hb
      cases hb
    · intro b0 r heq
      cases heq
  · have hempty : (getAlmostUpdatedAddresses st store env.currentBlock).isEmpty = false := by
      cases hx : getAlmostUpdatedAddresses st store env.currentBlock
      · exact absurd hx hnil
      · rfl
    rw [hempty] at h
    simp only [Bool.false_eq_true, if_false] at h
    rcases hloop : processAlmostUpdatedLoop env
        (getAlmostUpdatedAddresses st store env.currentBlock) env.currentBlock fuel
        st store 0 none [] with ⟨res, stl, storel, trl⟩
    rw [hloop] at h
    cases res with
    | error e => simp at h
    | ok out =>
      rcases out with ⟨tt, sbb, lastTo, bss⟩
      simp only [Prod.mk.injEq, Except.ok.injEq] at h
      obtain ⟨⟨htt, hsbb, hlb, hbss⟩, hst1, hstore1, htr1⟩ := h
      obtain ⟨b0, nbs, hbs, htotal, hbound, hlast, hmem, hsb, hconf⟩ :=
        almostLoop_ok env _ env.currentBlock hnil fuel st store 0 none []
          tt sbb lastTo bss stl storel trl (tierInv_almostUpdated hnil) hloop
      rw [List.nil_append] at hbs
      subst hbs
      subst hbss
      subst htt
      subst hsbb
      subst hst1
      refine ⟨hconf, by rw [htotal]; simp, hbound, ?_, ?_⟩
      · intro heq
        cases heq
      · intro b0' r' heq
        cases heq
        refine ⟨by rw [hsb], ?_, ?_⟩
        · rw [← hlb, hlast]
        · rw [← hlast]
          exact hmem

theorem runTier2_ok {α β : Type} (env : Env α β) (fuel : Nat) (st1 : Indexer)
    (store1 : Store) (t1 : Nat) (sb1 lb1 : Option Int)
    (t2 : Nat) (sb2 lb2 : Option Int) (b2 : List Batch)
    (st2 : Indexer) (store2 : Store) (tr2 : List Event)
    (h : runTier2With processNotUpdatedLoop env fuel st1 store1 t1 sb1 lb1 =
      (.ok (t2, sb2, lb2, b2), st2, store2, tr2)) :
    t2 = t1 + sumCounts b2 ∧
    (∀ b ∈ b2, b.2.1 ≤ env.currentBlock - st1.confirmations) ∧
    (b2 = [] → t2 = t1 ∧ sb2 = sb1 ∧ lb2 = lb1) ∧
    (b2 ≠ [] →
      sb2 = foldStartBlock sb1 (batchFroms b2) ∧
      (env.currentBlock - st1.confirmations) ∈ batchTos b2 ∧
      lb2 = foldLastBlock lb1 (env.currentBlock - st1.confirmations)) := by
  simp only [runTier2With] at h
  by_cases hnil : getNotUpdatedAddresses st1 store1 env.currentBlock = []
  · rw [hnil] at h
    simp only [List.isEmpty_nil, if_true, Prod.mk.injEq, Except.ok.injEq] at h
    obtain ⟨⟨ht, hsb, hlb, hb⟩, hst, hstore, htr⟩ := h
    subst ht
    subst hsb
    subst hlb
    subst hb
    refine ⟨by simp [sumCounts], ?_, fun _ => ⟨rfl, rfl, rfl⟩, ?_⟩
    · intro b hb
      cases hb
    · intro hne
      exact absurd rfl hne
  · have hempty : (getNotUpdatedAddresses st1 store1 env.currentBlock).isEmpty = false := by
      cases hx : getNotUpdatedAddresses st1 store1 env.currentBlock
      · exact absurd hx hnil
      · rfl
    rw [hempty] at h
    simp only [Bool.false_eq_true, if_false] at h
    rcases hloop : processNotUpdatedLoop env
        (getNotUpdatedAddresses st1 store1 env.currentBlock) env.currentBlock fuel
        st1 store1 t1 sb1 [] with ⟨res, stl, storel, trl⟩
    rw [hloop] at h
    cases res with
    | error e => simp at h
    | ok out =>
      rcases out with ⟨tt, sbb, lastTo, bss⟩
      simp only [Prod.mk.injEq, Except.ok.injEq] at h
      obtain ⟨⟨htt, hsbb, hlb, hbss⟩, hst2, hstore2, htr2⟩ := h
      obtain ⟨b0, nbs, hbs, htotal, hbound, hlast, hmem, hsb, hconf⟩ :=
        notUpdatedLoop_ok env _ env.currentBlock hnil fuel st1 store1 t1 sb1 []
          tt sbb lastTo bss stl storel trl (tierInv_notUpdated hnil) hloop
      rw [List.nil_append] at hbs
      subst hbs
      subst hbss
      subst htt
      subst hsbb
      refine ⟨htotal, hbound, ?_, ?_⟩
      · intro heq
        cases heq
      · intro _
        refine ⟨hsb, by rw [← hlast]; exact hmem, ?_⟩
        rw [← hlb, hlast]

theorem sumCounts_append (xs ys : List Batch) :
    sumCounts (xs ++ ys) = sumCounts xs + sumCounts ys := by
  simp [sumCounts]

theorem batchTos_le {bs : List Batch} {c : Int} (h : ∀ b ∈ bs, b.2.1 ≤ c) :
    ∀ w ∈ batchTos bs, w ≤ c := by
  intro w hw
  obtain ⟨b, hb, rfl⟩ := List.mem_map.mp hw
  exact h b hb

theorem batchTos_append (xs ys : List Batch) :
    batchTos (xs ++ ys) = batchTos xs ++ batchTos ys := by
  simp [batchTos]

/-- The blocks-processed count of the amended claim C8: the maximum batch `to`
over both tiers, minus the minimum over tier 1's first batch `from` and all of
tier 2's batch `from`s, plus one — or 0 when no batch ran. -/
def specBlocksProcessed (b1 b2 : List Batch) : Int :=
  match minimumWatermark (batchFroms (b1.take 1 ++ b2)),
        maximumBlock (batchTos (b1 ++ b2)) with
  | some s, some l => l - s + 1
  | _, _ => 0

/-- Claim C8 (amended): a completed `start()` run returns the total number of
processed elements across both tiers, and a blocks-processed count equal to
the maximum last block over all batches minus the minimum over tier 1's
*first* batch's first block and tier 2's first blocks, plus one — or 0 when no
batch ran.  (The original claim's "minimum first block seen" over *all*
batches fails: tier 1 keeps only the first `from` it sees.) -/
theorem claim_C8_amended {α β : Type} (env : Env α β) (fuel : Nat) (st : Indexer)
    (store : Store) (total : Nat) (blocks : Int) (st' : Indexer) (store' : Store)
    (tr : List Event) (b1 b2 : List Batch)
    (h : startRun env fuel st store =
      (.ok (total, blocks), st', store', tr, b1, b2)) :
    total = sumCounts (b1 ++ b2) ∧ blocks = specBlocksProcessed b1 b2 := by
  unfold startRun at h
  rcases h1 : runTier1 env fuel st store with ⟨res1, st1, store1, tr1⟩
  rw [h1] at h
  cases res1 with
  | error e => simp at h
  | ok out1 =>
    rcases out1 with ⟨t1, sb1, lb1, bb1⟩
    simp only at h
    rcases h2 : runTier2With processNotUpdatedLoop env fuel st1 store1 t1 sb1 lb1
      with ⟨res2, st2, store2, tr2⟩
    rw [h2] at h
    cases res2 with
    | error e => simp at h
    | ok out2 =>
      rcases out2 with ⟨t2, sb2, lb2, bb2⟩
      simp only [Prod.mk.injEq, Except.ok.injEq] at h
      obtain ⟨⟨ht2, hblocks⟩, hst', hstore', htr, hb1, hb2⟩ := h
      subst hb1
      subst hb2
      subst ht2
      obtain ⟨hconf1, ht1sum, hbound1, hempty1, hcons1⟩ :=
        runTier1_ok env fuel st store t1 sb1 lb1 bb1 st1 store1 tr1 h1
      obtain ⟨ht2sum, hbound2, hempty2, hcons2⟩ :=
        runTier2_ok env fuel st1 store1 t1 sb1 lb1 t2 sb2 lb2 bb2 st2 store2 tr2 h2
      rw [hconf1] at hbound2 hcons2
      constructor
      · rw [sumCounts_append, ht2sum, ht1sum]
      · rw [← hblocks]
        cases bb1 with
        | nil =>
          obtain ⟨hsb1, hlb1⟩ := hempty1 rfl
          subst hsb1
          subst hlb1
          cases bb2 with
          | nil =>
            obtain ⟨-, hsb2, hlb2⟩ := hempty2 rfl
            subst hsb2
            subst hlb2
            rfl
          | cons c0 r2 =>
            obtain ⟨hsb2, hmem2, hlb2⟩ := hcons2 (by simp)
            subst hsb2
            subst hlb2
            have hmax : maximumBlock (batchTos (([] : List Batch) ++ c0 :: r2)) =
                some (env.currentBlock - st.confirmations) := by
              rw [List.nil_append]
              exact maximumBlock_eq_of_mem_of_le hmem2 (batchTos_le hbound2)
            unfold specBlocksProcessed
            rw [hmax, foldStartBlock_eq_min]
            simp only [List.take_nil, List.nil_append]
            cases hmw : minimumWatermark (batchFroms (c0 :: r2)) <;> rfl
        | cons b0 r1 =>
          obtain ⟨hsb1, hlb1, hmem1⟩ := hcons1 b0 r1 rfl
          subst hsb1
          subst hlb1
          cases bb2 with
          | nil =>
            obtain ⟨-, hsb2, hlb2⟩ := hempty2 rfl
            subst hsb2
            subst hlb2
            have hmax : maximumBlock (batchTos ((b0 :: r1) ++ ([] : List Batch))) =
                some (env.currentBlock - st.confirmations) := by
              rw [List.append_nil]
              exact maximumBlock_eq_of_mem_of_le hmem1 (batchTos_le hbound1)
            unfold specBlocksProcessed
            rw [hmax]
            simp only [List.take_succ_cons, List.take_nil, List.append_nil]
            rfl
          | cons c0 r2 =>
            obtain ⟨hsb2, hmem2, hlb2⟩ := hcons2 (by simp)
            subst hsb2
            subst hlb2
            have hmax : maximumBlock (batchTos ((b0 :: r1) ++ c0 :: r2)) =
                some (env.currentBlock - st.confirmations) := by
              rw [batchTos_append]
              refine maximumBlock_eq_of_mem_of_le
                (List.mem_append.mpr (.inr hmem2)) ?_
              intro w hw
              rcases List.mem_append.mp hw with hw1 | hw2
              · exact batchTos_le hbound1 w hw1
              · exact batchTos_le hbound2 w hw2
            unfold specBlocksProcessed
            rw [hmax, foldStartBlock_eq_min]
            have hfl : foldLastBlock (some (env.currentBlock - st.confirmations))
                (env.currentBlock - st.confirmations) =
                some (env.currentBlock - st.confirmations) := by
              simp [foldLastBlock]
            rw [hfl]
            simp only [List.take_succ_cons, List.take_zero]
            have hfroms : batchFroms ((b0 :: ([] : List Batch)) ++ c0 :: r2) =
                b0.1 :: batchFroms (c0 :: r2) := by
              simp [batchFroms]
            rw [hfroms]
            have hconsmw : minimumWatermark (b0.1 :: batchFroms (c0 :: r2)) =
                match minimumWatermark (batchFroms (c0 :: r2)) with
                | none => some b0.1
                | some m => some (min b0.1 m) := rfl
            rw [hconsmw]
            cases hmw : minimumWatermark (batchFroms (c0 :: r2)) <;> simp only <;> rfl

/-- Claim C8 as stated is false on the code: with watermark 50, height 60,
`windowSize = 10` doubled to 20 by a fast first batch, and `reindexMargin =
11`, tier 1 runs batches `(50, 59)` and `(49, 60)` (the second reindexed
backwards past the first), `start()` reports 11 blocks processed, but
(maximum last block − minimum first block) + 1 over all batches is
60 − 49 + 1 = 12: tier 1 keeps only the *first* `from` it sees, never the
minimum. -/
theorem claim_C8_counterexample :
    (startRun (⟨60, fun _ _ _ _ => .ok ([] : List Nat), ( fun _ => ([] : List Nat)),
        fun _ _ => 1⟩ : Env Nat Nat) 5 ⟨0, 10, 0, 11, 20, true⟩ [(0, 50)]).1 =
      .ok (0, 11) ∧
    (startRun (⟨60, fun _ _ _ _ => .ok ([] : List Nat), ( fun _ => ([] : List Nat)),
        fun _ _ => 1⟩ : Env Nat Nat) 5 ⟨0, 10, 0, 11, 20, true⟩ [(0, 50)]).2.2.2.2.1 =
      [(50, 59, 0), (49, 60, 0)] ∧
    (startRun (⟨60, fun _ _ _ _ => .ok ([] : List Nat), ( fun _ => ([] : List Nat)),
        fun _ _ => 1⟩ : Env Nat Nat) 5 ⟨0, 10, 0, 11, 20, true⟩ [(0, 50)]).2.2.2.2.2 =
      ([] : List Batch) ∧
    minimumWatermark (batchFroms ([(50, 59, 0), (49, 60, 0)] ++ ([] : List Batch))) =
      some 49 ∧
    maximumBlock (batchTos ([(50, 59, 0), (49, 60, 0)] ++ ([] : List Batch))) =
      some 60 ∧
    (11 : Int) ≠ 60 - 49 + 1 :=
  ⟨rfl, rfl, rfl, by decide, by decide, by decide⟩

/-- Witness for claim C8 (amended): a single-batch run over watermark 5 at
height 10 processes blocks 5..10, reporting 6 blocks, matching the formula. -/
theorem claim_C8_witness :
    startRun (⟨10, fun _ _ _ _ => .ok ([] : List Nat), ( fun _ => ([] : List Nat)),
        fun _ _ => 7⟩ : Env Nat Nat) 5 ⟨0, 10, 0, 0, 20, false⟩ [(0, 5)] =
      (.ok (0, 6), ⟨0, 10, 0, 0, 20, false⟩, [(0, 11)],
        [Event.readAlmostUpdated [0], Event.readMinBlockNumber [0] (some 5),
         Event.writeWatermarks [0] 5 10 1, Event.readNotUpdated []],
        [(5, 10, 0)], []) ∧
    (0 = sumCounts ([(5, 10, 0)] ++ []) ∧
      (6 : Int) = specBlocksProcessed [(5, 10, 0)] []) :=
  ⟨rfl,
    claim_C8_amended (⟨10, fun _ _ _ _ => .ok ([] : List Nat), ( fun _ => ([] : List Nat)),
        fun _ _ => 7⟩ : Env Nat Nat) 5 ⟨0, 10, 0, 0, 20, false⟩ [(0, 5)] 0 6
      ⟨0, 10, 0, 0, 20, false⟩ [(0, 11)]
      [Event.readAlmostUpdated [0], Event.readMinBlockNumber [0] (some 5),
       Event.writeWatermarks [0] 5 10 1, Event.readNotUpdated []]
      [(5, 10, 0)] [] rfl⟩
